import Mathlib

/-!
Verification of the ssh-kim encrypted keystore engine.

The definitions below are a shallow embedding of the core of
`src/src-tauri/src/commands.rs` and `src/src-tauri/src/lib.rs`:
the record data model, key-derivation state, the cipher pipeline
(padding, block loop, encoding), the in-memory cache, and the
merge/import engine.  Code from external crates (the AES block cipher,
the base64 codec, UTF-8 conversion, SHA-256) is not code of this
repository; it is abstracted into explicitly passed functions, and the
theorems state the hypotheses those crates guarantee.  Stateful Rust
code (process-wide statics behind mutexes, file IO) is embedded as
explicit state passing: mutable statics become fields of small state
structures, and fallible IO becomes an `Except` or `Option` parameter
describing the outcome of the external effect.

Timestamps (`chrono::DateTime<Utc>`) are embedded as `Nat`, which keeps
the ISO-8601 comparability the code relies on.  Bytes are embedded as
`Nat` (the code never overflows a byte: pad values are in `1..=16`).
-/

namespace SshKim

/-- Record data model, from `SshKey` in `src/src-tauri/src/lib.rs` lines 6-15. -/
structure SshKey where
  id : String
  name : String
  tag : Option String
  key : String
  key_type : String
  created : Nat
  last_modified : Nat
deriving DecidableEq, Repr

/-- Partial update payload, from `SshKeyUpdate` in `src/src-tauri/src/lib.rs` lines 17-22. -/
structure SshKeyUpdate where
  name : Option String
  tag : Option String
  key : Option String
deriving DecidableEq, Repr

/-- Import report, from `ImportResult` in `commands.rs` lines 21-27. -/
structure ImportResult where
  keys : List SshKey
  imported_count : Nat
  duplicate_count : Nat
  total_in_store : Nat
deriving DecidableEq, Repr

/--
Process-wide key-derivation state: `MACHINE_KEY` (commands.rs line 31,
a `Lazy` value computed once) and `PASSWORD_KEY` (line 43, a
`Mutex<Option<[u8; 32]>>`).  Keys are byte lists.
-/
structure KeyState where
  machineKey : List Nat
  passwordKey : Option (List Nat)
deriving DecidableEq, Repr

/-- `get_encryption_key`, commands.rs lines 81-83: returns `*MACHINE_KEY`
and consults nothing else. -/
def get_encryption_key (s : KeyState) : List Nat :=
  s.machineKey

/-- `set_password_key`, commands.rs lines 91-96. -/
def set_password_key (k : List Nat) (s : KeyState) : KeyState :=
  { s with passwordKey := some k }

/-- `clear_password_key`, commands.rs lines 99-103. -/
def clear_password_key (s : KeyState) : KeyState :=
  { s with passwordKey := none }

/-- Modelled from the spec (section 4.2, "Active key resolution"): if a
password key has been set and not cleared, use it; otherwise use the
machine key.  This is the specification-side definition that claim C1
compares against the code-side `get_encryption_key`. -/
def activeKeySpec (s : KeyState) : List Nat :=
  s.passwordKey.getD s.machineKey

/--
`get_cached_keys`, commands.rs lines 112-122.  The static
`KEYS_CACHE : Mutex<Option<Vec<SshKey>>>` is the `Option (List SshKey)`
argument; `load_keys()` (file read + decrypt + parse) is the abstracted
`load` effect.  Returns the command result and the cache afterwards.
-/
def get_cached_keys (load : Unit → Except String (List SshKey))
    (cache : Option (List SshKey)) :
    Except String (List SshKey) × Option (List SshKey) :=
  match cache with
  | some cached_keys => (Except.ok cached_keys, some cached_keys)
  | none =>
    match load () with
    | Except.ok keys => (Except.ok keys, some keys)
    | Except.error e => (Except.error e, none)

/--
`update_cache_and_save`, commands.rs lines 125-134: save to file first
(the `?` operator returns early on failure), then update the cache.
`save` is the abstracted `save_keys` effect (serialize + encrypt + write).
-/
def update_cache_and_save (save : List SshKey → Except String Unit)
    (keys : List SshKey) (cache : Option (List SshKey)) :
    Except String Unit × Option (List SshKey) :=
  match save keys with
  | Except.error e => (Except.error e, cache)
  | Except.ok _ => (Except.ok (), some keys)

/-- `clear_cache`, commands.rs lines 137-140. -/
def clear_cache (_cache : Option (List SshKey)) : Option (List SshKey) :=
  none

/--
The merge step of `merge_keys_from_file`, commands.rs lines 727-740:
collect the current ids into a set, keep the incoming records whose id
is not in it, and append them after the current records.  The Rust
`HashSet<String>` built from `current` is embedded as membership in
`current.map SshKey.id`.
-/
def mergeKeys (current_keys source_keys : List SshKey) : List SshKey :=
  let existing_ids := current_keys.map SshKey.id
  let new_keys := source_keys.filter (fun k => !(existing_ids.contains k.id))
  current_keys ++ new_keys

/--
The merge-and-count step of `import_keys_with_password`,
commands.rs lines 871-915: same id-based deduplication as `mergeKeys`,
plus the counts reported to the caller and the all-duplicates early
return (lines 889-898).
-/
def password_import_result (current_keys imported_keys : List SshKey) : ImportResult :=
  let existing_ids := current_keys.map SshKey.id
  let new_keys := imported_keys.filter (fun k => !(existing_ids.contains k.id))
  let duplicate_count := imported_keys.length - new_keys.length
  if new_keys.length = 0 then
    { keys := current_keys
      imported_count := 0
      duplicate_count := imported_keys.length
      total_in_store := current_keys.length }
  else
    let merged_keys := current_keys ++ new_keys
    { keys := merged_keys
      imported_count := new_keys.length
      duplicate_count := duplicate_count
      total_in_store := merged_keys.length }

/--
External collaborators of the cipher pipeline, all from crates outside
this repository: the AES-256 block operations (`aes` crate, keyed —
one pair of functions per key), the base64 codec (`base64` crate,
`general_purpose::STANDARD`), and UTF-8 conversion (`str::as_bytes`,
`String::from_utf8`).  The theorems assume of them exactly the contract
those crates provide.
-/
structure ExternalFns where
  encBlock : List Nat → List Nat
  decBlock : List Nat → List Nat
  b64enc : List Nat → String
  b64dec : String → Option (List Nat)
  utf8enc : String → List Nat
  utf8dec : List Nat → Option String

/--
The block loop shared by `encrypt_data` (commands.rs lines 187-191) and
`decrypt_data` (lines 213-217):
`for chunk in data.chunks(16) { let mut block = GenericArray::clone_from_slice(chunk); ...; extend }`.
`chunks(16)` yields 16-byte chunks with a shorter final chunk when the
length is not a multiple of 16, and `GenericArray::clone_from_slice`
panics on a chunk whose length is not exactly 16; the panic is embedded
as `none`.
-/
def processBlocks (f : List Nat → List Nat) : List Nat → Option (List Nat)
  | [] => some []
  | b0 :: b1 :: b2 :: b3 :: b4 :: b5 :: b6 :: b7 :: b8 :: b9 :: b10 :: b11 :: b12 :: b13 :: b14 :: b15 :: rest =>
    match processBlocks f rest with
    | some tail_out =>
      some (f [b0, b1, b2, b3, b4, b5, b6, b7, b8, b9, b10, b11, b12, b13, b14, b15] ++ tail_out)
    | none => none
  | _ => none

/-- The padding step of `encrypt_data`, commands.rs lines 179-182:
`padding = 16 - len % 16` bytes, each of value `padding`, are appended.
When the length is already a multiple of 16 this adds a full block of
16 bytes of value 16. -/
def padData (data : List Nat) : List Nat :=
  let padding := 16 - data.length % 16
  data ++ List.replicate padding padding

/-- The unpadding step of `decrypt_data`, commands.rs lines 220-224:
read the final byte; if it is in `1..=16` truncate that many bytes,
otherwise leave the data as it is. -/
def removePadding (decrypted : List Nat) : List Nat :=
  match decrypted.getLast? with
  | some padding =>
    if padding ≤ 16 ∧ 0 < padding then
      decrypted.take (decrypted.length - padding)
    else decrypted
  | none => decrypted

/--
`encrypt_data`, commands.rs lines 172-194.  The fresh random IV
(`rng.gen()`, line 177) is passed in explicitly; the cipher built from
`get_encryption_key()` is `X.encBlock`.  The IV is prepended unencrypted
and the whole blob is base64 encoded.  The block loop cannot in fact
panic here (the padded data is always block aligned), which the
round-trip theorem proves; its `Option` is kept so that the loop is
embedded once, identically for both directions.
-/
def encrypt_data (X : ExternalFns) (iv : List Nat) (data : String) : Option String :=
  match processBlocks X.encBlock (padData (X.utf8enc data)) with
  | some ciphertext => some (X.b64enc (iv ++ ciphertext))
  | none => none

/-- Outcome of `decrypt_data`: a returned value, a returned `Err`, or a
Rust panic (from `GenericArray::clone_from_slice`). -/
inductive DecOutcome where
  | ok (s : String)
  | err (msg : String)
  | panicked
deriving DecidableEq, Repr

/--
`decrypt_data`, commands.rs lines 197-228: base64 decode (error on
failure), reject blobs shorter than 16 bytes, strip the 16-byte IV
(unused), run the block loop, strip padding, convert to UTF-8 (error on
failure).
-/
def decrypt_data (X : ExternalFns) (encrypted_data : String) : DecOutcome :=
  match X.b64dec encrypted_data with
  | none => DecOutcome.err "Failed to decode base64"
  | some encrypted_bytes =>
    if encrypted_bytes.length < 16 then DecOutcome.err "Invalid encrypted data"
    else
      let data := encrypted_bytes.drop 16
      match processBlocks X.decBlock data with
      | none => DecOutcome.panicked
      | some decrypted =>
        match X.utf8dec (removePadding decrypted) with
        | none => DecOutcome.err "Failed to convert to string"
        | some s => DecOutcome.ok s

/-- Character-level model of Rust `str::trim` (both ends, whitespace). -/
def trimChars (cs : List Char) : List Char :=
  ((cs.dropWhile Char.isWhitespace).reverse.dropWhile Char.isWhitespace).reverse

/-- Model of Rust `str::trim` on embedded strings. -/
def strTrim (s : String) : String :=
  String.mk (trimChars s.data)

/-- Model of Rust `str::to_lowercase` on embedded strings (the record
names the code compares are ASCII; per-character lowering models it). -/
def strLower (s : String) : String :=
  String.mk (s.data.map Char.toLower)

/-- Does `needle` start `haystack`. -/
def charsStart : List Char → List Char → Bool
  | [], _ => true
  | _ :: _, [] => false
  | a :: as, b :: bs => a == b && charsStart as bs

/-- Does `haystack` contain `needle`, model of Rust `str::contains`. -/
def charsHaveSub (needle : List Char) : List Char → Bool
  | [] => needle.isEmpty
  | c :: rest => charsStart needle (c :: rest) || charsHaveSub needle rest

/-- Model of Rust `str::contains` on embedded strings. -/
def strHasSub (haystack needle : String) : Bool :=
  charsHaveSub needle.data haystack.data

/-- `detect_key_type`, commands.rs lines 261-273. -/
def detect_key_type (key_content : String) : String :=
  if strHasSub key_content "ssh-rsa" then "rsa"
  else if strHasSub key_content "ssh-dss" then "dsa"
  else if strHasSub key_content "ecdsa-" then "ecdsa"
  else if strHasSub key_content "ssh-ed25519" then "ed25519"
  else "unknown"

/--
The pure part of `add_ssh_key`, commands.rs lines 343-373: duplicate
checks (content first, then name), then the new record.  The fresh
`Uuid::new_v4()` and `Utc::now()` are passed in as `new_id` and `now`.
-/
def add_ssh_key (keys : List SshKey) (name : String) (tag : Option String)
    (key_content : String) (new_id : String) (now : Nat) :
    Except String (SshKey × List SshKey) :=
  if keys.any (fun k => strTrim k.key == strTrim key_content) then
    Except.error "A key with this content already exists"
  else if keys.any (fun k => strLower (strTrim k.name) == strLower (strTrim name)) then
    Except.error "A key with this name already exists"
  else
    let trimmed_key_content := strTrim key_content
    let key_type := detect_key_type trimmed_key_content
    let new_key : SshKey :=
      { id := new_id, name := name, tag := tag, key := trimmed_key_content
        key_type := key_type, created := now, last_modified := now }
    Except.ok (new_key, keys ++ [new_key])

/-- `add_ssh_key` as a transition on the stored collection: on error the
collection is left as it was (the code returns before
`update_cache_and_save`, line 370). -/
def add_ssh_key_op (keys : List SshKey) (name : String) (tag : Option String)
    (key_content : String) (new_id : String) (now : Nat) :
    Except String SshKey × List SshKey :=
  match add_ssh_key keys name tag key_content new_id now with
  | Except.error e => (Except.error e, keys)
  | Except.ok (new_key, keys2) => (Except.ok new_key, keys2)

/-- The field mutations of `update_ssh_key`, commands.rs lines 396-410,
applied to the record at `key_index`: each supplied field replaces the
old one (`key` is trimmed and re-classified), then `last_modified` is
set to `Utc::now()` (passed in as `now`). -/
def applyUpdate (u : SshKeyUpdate) (now : Nat) (k : SshKey) : SshKey :=
  let k1 := match u.name with
    | some n => { k with name := n }
    | none => k
  let k2 := match u.tag with
    | some t => { k1 with tag := some t }
    | none => k1
  let k3 := match u.key with
    | some kc =>
      { k2 with key := strTrim kc, key_type := detect_key_type (strTrim kc) }
    | none => k2
  { k3 with last_modified := now }

/--
The pure part of `update_ssh_key`, commands.rs lines 376-416: locate the
record by id (`position`, line 379), run the duplicate-name and
duplicate-content checks against every other record (lines 383-394),
mutate in place, and return the mutated record.  The index returned by
`position` is always in range, so the `none` arm of the final lookup
(which in Rust would be an out-of-range indexing panic) is unreachable.
-/
def update_ssh_key (keys : List SshKey) (id : String) (u : SshKeyUpdate) (now : Nat) :
    Except String (SshKey × List SshKey) :=
  match keys.findIdx? (fun k => k.id == id) with
  | none => Except.error "Key not found"
  | some key_index =>
    if (match u.name with
        | some n => keys.any (fun k => !(k.id == id) && (strLower (strTrim k.name) == strLower (strTrim n)))
        | none => false) then
      Except.error "A key with this name already exists"
    else if (match u.key with
        | some kc => keys.any (fun k => !(k.id == id) && (strTrim k.key == strTrim kc))
        | none => false) then
      Except.error "A key with this content already exists"
    else
      match keys[key_index]? with
      | some old_key =>
        Except.ok (applyUpdate u now old_key, keys.modify (applyUpdate u now) key_index)
      | none => Except.error "index out of range"

/-- The pure part of `remove_ssh_key`, commands.rs lines 419-441:
`retain` every record with a different id, error when nothing was
removed. -/
def remove_ssh_key (keys : List SshKey) (id : String) : Except String (List SshKey) :=
  let remaining := keys.filter (fun k => !(k.id == id))
  if remaining.length = keys.length then Except.error "Key not found"
  else Except.ok remaining

/--
Store-location state: `CUSTOM_FILE_PATH` (commands.rs line 109) and
`KEYS_CACHE` (line 106), the two statics the location commands touch.
-/
structure StoreState where
  customPath : Option String
  cache : Option (List SshKey)
deriving DecidableEq, Repr

/--
`set_custom_keys_file_path`, commands.rs lines 531-549: validate that
the parent directory exists (`parent_exists` abstracts the filesystem
lookup), set the custom path, and clear the cache.
-/
def set_custom_keys_file_path (parent_exists : Bool) (file_path : String)
    (st : StoreState) : Except String Unit × StoreState :=
  if !parent_exists then (Except.error "Parent directory does not exist", st)
  else (Except.ok (), { customPath := some file_path, cache := none })

/-- `reset_to_default_path`, commands.rs lines 613-622: clear the custom
path and clear the cache. -/
def reset_to_default_path (_st : StoreState) : StoreState :=
  { customPath := none, cache := none }

/--
`load_keys_from_file`, commands.rs lines 552-610, as a transition on the
location state.  `read_result` abstracts the exists/is-file/read/
decrypt/parse pipeline (lines 558-593), every failure of which returns
before any state is touched.  On success the file becomes the custom
path and the cache is set to the loaded keys (lines 598-605) — the code
assigns `*cache = Some(keys)` directly and never calls `clear_cache`.
-/
def load_keys_from_file (read_result : Except String (List SshKey))
    (file_path : String) (st : StoreState) :
    Except String (List SshKey) × StoreState :=
  match read_result with
  | Except.error e => (Except.error e, st)
  | Except.ok keys => (Except.ok keys, { customPath := some file_path, cache := some keys })

/--
The key-state flow of `merge_keys_from_file`, commands.rs lines 694-721:
try to load the source file under the current key state; on failure call
`clear_password_key()` (line 708) and retry; on a second failure report
the decrypt error.  `load` abstracts `load_keys_from_file`, whose
decryption depends on the key state.  Nothing ever restores the cleared
password key.
-/
def merge_keys_from_file_keyflow (load : KeyState → Except String (List SshKey))
    (s : KeyState) : Except String (List SshKey) × KeyState :=
  match load s with
  | Except.ok source_keys => (Except.ok source_keys, s)
  | Except.error _ =>
    let s2 := clear_password_key s
    match load s2 with
    | Except.ok source_keys => (Except.ok source_keys, s2)
    | Except.error _ =>
      (Except.error "Failed to decrypt file. The file may be password-protected or corrupted. Try using Import with Password Protection instead.", s2)

/-! Helper lemmas about the block loop. -/

/-- Unfolding equation for `processBlocks`: one 16-byte chunk is peeled
off when at least 16 bytes remain, the empty input yields the empty
output, and a short non-empty remainder is the panic case. -/
theorem processBlocks_eq (f : List Nat → List Nat) :
    ∀ l : List Nat,
      processBlocks f l =
        if l = [] then some []
        else if 16 ≤ l.length then
          Option.map (fun t => f (l.take 16) ++ t) (processBlocks f (l.drop 16))
        else none
  | [] => rfl
  | [_] => rfl
  | [_, _] => rfl
  | [_, _, _] => rfl
  | [_, _, _, _] => rfl
  | [_, _, _, _, _] => rfl
  | [_, _, _, _, _, _] => rfl
  | [_, _, _, _, _, _, _] => rfl
  | [_, _, _, _, _, _, _, _] => rfl
  | [_, _, _, _, _, _, _, _, _] => rfl
  | [_, _, _, _, _, _, _, _, _, _] => rfl
  | [_, _, _, _, _, _, _, _, _, _, _] => rfl
  | [_, _, _, _, _, _, _, _, _, _, _, _] => rfl
  | [_, _, _, _, _, _, _, _, _, _, _, _, _] => rfl
  | [_, _, _, _, _, _, _, _, _, _, _, _, _, _] => rfl
  | [_, _, _, _, _, _, _, _, _, _, _, _, _, _, _] => rfl
  | b0 :: b1 :: b2 :: b3 :: b4 :: b5 :: b6 :: b7 :: b8 :: b9 :: b10 :: b11 :: b12 :: b13 :: b14 :: b15 :: rest => by
    rw [if_neg (List.cons_ne_nil _ _), if_pos (by simp [List.length_cons])]
    have htake :
        List.take 16 (b0 :: b1 :: b2 :: b3 :: b4 :: b5 :: b6 :: b7 :: b8 :: b9 :: b10 :: b11 :: b12 :: b13 :: b14 :: b15 :: rest) =
          [b0, b1, b2, b3, b4, b5, b6, b7, b8, b9, b10, b11, b12, b13, b14, b15] := rfl
    have hdrop :
        List.drop 16 (b0 :: b1 :: b2 :: b3 :: b4 :: b5 :: b6 :: b7 :: b8 :: b9 :: b10 :: b11 :: b12 :: b13 :: b14 :: b15 :: rest) =
          rest := rfl
    rw [htake, hdrop]
    cases h : processBlocks f rest with
    | none => simp [processBlocks, h]
    | some t => simp [processBlocks, h]

/-- Concatenation of a block list after applying `g` to each block. -/
def concatBlocks (g : List Nat → List Nat) : List (List Nat) → List Nat
  | [] => []
  | b :: bs => g b ++ concatBlocks g bs

theorem concatBlocks_congr {g1 g2 : List Nat → List Nat} :
    ∀ bs : List (List Nat), (∀ b ∈ bs, g1 b = g2 b) →
      concatBlocks g1 bs = concatBlocks g2 bs := by
  intro bs
  induction bs with
  | nil => intro _; rfl
  | cons b rest ih =>
    intro h
    show g1 b ++ concatBlocks g1 rest = g2 b ++ concatBlocks g2 rest
    rw [h b (by simp), ih (fun x hx => h x (by simp [hx]))]

theorem concatBlocks_map (g h : List Nat → List Nat) :
    ∀ bs : List (List Nat),
      concatBlocks g (bs.map h) = concatBlocks (fun b => g (h b)) bs := by
  intro bs
  induction bs with
  | nil => rfl
  | cons b rest ih =>
    show g (h b) ++ concatBlocks g (rest.map h) = _
    rw [ih]
    rfl

theorem processBlocks_append16 (f : List Nat → List Nat) (b rest : List Nat)
    (hb : b.length = 16) :
    processBlocks f (b ++ rest) =
      Option.map (fun t => f b ++ t) (processBlocks f rest) := by
  rw [processBlocks_eq]
  have hne : b ++ rest ≠ [] := by
    intro h
    have := congrArg List.length h
    simp [hb] at this
  have hlen : 16 ≤ (b ++ rest).length := by simp [hb]
  rw [if_neg hne, if_pos hlen]
  have ht : (b ++ rest).take 16 = b := by rw [← hb]; exact List.take_left b rest
  have hd : (b ++ rest).drop 16 = rest := by rw [← hb]; exact List.drop_left b rest
  rw [ht, hd]

theorem processBlocks_concat (f : List Nat → List Nat) :
    ∀ blocks : List (List Nat), (∀ b ∈ blocks, b.length = 16) →
      processBlocks f (concatBlocks (fun b => b) blocks) =
        some (concatBlocks f blocks) := by
  intro blocks
  induction blocks with
  | nil => intro _; rfl
  | cons b rest ih =>
    intro h
    have hb : b.length = 16 := h b (by simp)
    show processBlocks f (b ++ concatBlocks _ rest) = _
    rw [processBlocks_append16 f b _ hb, ih (fun x hx => h x (by simp [hx]))]
    rfl

theorem exists_blocks :
    ∀ (n : Nat) (l : List Nat), l.length = 16 * n →
      ∃ blocks : List (List Nat),
        (∀ b ∈ blocks, b.length = 16) ∧ concatBlocks (fun b => b) blocks = l := by
  intro n
  induction n with
  | zero =>
    intro l hl
    have : l = [] := List.length_eq_zero.mp (by simpa using hl)
    exact ⟨[], by simp, by simp [concatBlocks, this]⟩
  | succ n ih =>
    intro l hl
    have h16 : 16 ≤ l.length := by omega
    obtain ⟨blocks, hb, hc⟩ := ih (l.drop 16) (by simp [List.length_drop]; omega)
    refine ⟨l.take 16 :: blocks, ?_, ?_⟩
    · intro b hbmem
      rcases List.mem_cons.mp hbmem with hbeq | hbmem2
      · subst hbeq
        simp [List.length_take]
        omega
      · exact hb b hbmem2
    · show l.take 16 ++ concatBlocks _ blocks = l
      rw [hc]
      exact List.take_append_drop 16 l

theorem processBlocks_some_of_mod (f : List Nat → List Nat) (l : List Nat)
    (h : l.length % 16 = 0) : ∃ out, processBlocks f l = some out := by
  obtain ⟨n, hn⟩ : ∃ n, l.length = 16 * n := ⟨l.length / 16, by omega⟩
  obtain ⟨blocks, hb, hc⟩ := exists_blocks n l hn
  exact ⟨concatBlocks f blocks, by rw [← hc]; exact processBlocks_concat f blocks hb⟩

theorem processBlocks_none_of_mod (f : List Nat → List Nat) :
    ∀ l : List Nat, l.length % 16 ≠ 0 → processBlocks f l = none := by
  suffices H : ∀ (n : Nat) (l : List Nat), l.length ≤ n → l.length % 16 ≠ 0 →
      processBlocks f l = none from fun l h => H l.length l le_rfl h
  intro n
  induction n with
  | zero =>
    intro l hl h
    have : l.length = 0 := by omega
    simp [this] at h
  | succ n ih =>
    intro l hl h
    rw [processBlocks_eq]
    have hne : l ≠ [] := by
      intro he
      subst he
      simp at h
    rw [if_neg hne]
    by_cases h16 : 16 ≤ l.length
    · rw [if_pos h16]
      rw [ih (l.drop 16) (by simp [List.length_drop]; omega)
        (by simp [List.length_drop]; omega)]
      rfl
    · rw [if_neg h16]

/-! Helper lemmas about padding. -/

theorem padData_length_mod (d : List Nat) : (padData d).length % 16 = 0 := by
  simp [padData]
  omega

theorem padData_eq_append (d : List Nat) :
    padData d = d ++ List.replicate (16 - d.length % 16) (16 - d.length % 16) := rfl

theorem removePadding_padData (d : List Nat) : removePadding (padData d) = d := by
  have hp1 : 1 ≤ 16 - d.length % 16 := by omega
  have hp16 : 16 - d.length % 16 ≤ 16 := by omega
  have hrep : (List.replicate (16 - d.length % 16) (16 - d.length % 16) : List Nat) ≠ [] := by
    simp
    omega
  rw [padData_eq_append]
  unfold removePadding
  rw [List.getLast?_append_of_ne_nil _ hrep, List.getLast?_replicate]
  rw [if_neg (by omega)]
  simp only [hp16, hp1, Nat.lt_of_lt_of_le Nat.zero_lt_one hp1, and_true, if_pos,
    List.length_append, List.length_replicate]
  have : d.length + (16 - d.length % 16) - (16 - d.length % 16) = d.length := by omega
  rw [this, List.take_left]

/--
Claim C4: for every plaintext string and every 256-bit key, decrypting
the encryption of the plaintext under the same key returns the original
plaintext; in particular, a plaintext whose byte length is an exact
multiple of 16 gains a full 16-byte padding block during encryption,
and that padding is removed on decryption.  The AES-256 block
operations under the fixed key are any length-preserving pair of
mutually inverse block functions (`hE`, `hD`: the `aes` crate contract
for every key); the base64 codec and UTF-8 conversion are any pair
satisfying their crate contracts (`hb64`, `hutf8`).
-/
theorem c4_encrypt_decrypt_roundtrip (X : ExternalFns) (iv : List Nat) (s : String)
    (hiv : iv.length = 16)
    (hb64 : ∀ bs, X.b64dec (X.b64enc bs) = some bs)
    (hutf8 : ∀ t, X.utf8dec (X.utf8enc t) = some t)
    (hE : ∀ b, b.length = 16 → (X.encBlock b).length = 16)
    (hD : ∀ b, b.length = 16 → X.decBlock (X.encBlock b) = b) :
    (∃ ct, encrypt_data X iv s = some ct ∧ decrypt_data X ct = DecOutcome.ok s)
    ∧ ((X.utf8enc s).length % 16 = 0 →
        padData (X.utf8enc s) = X.utf8enc s ++ List.replicate 16 16) := by
  constructor
  · obtain ⟨n, hn⟩ : ∃ n, (padData (X.utf8enc s)).length = 16 * n :=
      ⟨(padData (X.utf8enc s)).length / 16, by
        have := padData_length_mod (X.utf8enc s)
        omega⟩
    obtain ⟨blocks, hb, hc⟩ := exists_blocks n (padData (X.utf8enc s)) hn
    have henc : processBlocks X.encBlock (padData (X.utf8enc s)) =
        some (concatBlocks X.encBlock blocks) := by
      rw [← hc]
      exact processBlocks_concat _ blocks hb
    refine ⟨X.b64enc (iv ++ concatBlocks X.encBlock blocks), ?_, ?_⟩
    · unfold encrypt_data
      rw [henc]
    · have hlen : ¬ ((iv ++ concatBlocks X.encBlock blocks).length < 16) := by
        simp [List.length_append, hiv]
      have hdrop : (iv ++ concatBlocks X.encBlock blocks).drop 16 =
          concatBlocks X.encBlock blocks := by
        rw [← hiv]
        exact List.drop_left _ _
      have hmem : ∀ b ∈ blocks.map X.encBlock, b.length = 16 := by
        intro b hbm
        obtain ⟨a, ha, rfl⟩ := List.mem_map.mp hbm
        exact hE a (hb a ha)
      have hdec : processBlocks X.decBlock (concatBlocks X.encBlock blocks) =
          some (padData (X.utf8enc s)) := by
        have h1 : concatBlocks X.encBlock blocks =
            concatBlocks (fun b => b) (blocks.map X.encBlock) :=
          (concatBlocks_map (fun b => b) X.encBlock blocks).symm
        rw [h1, processBlocks_concat _ _ hmem, concatBlocks_map,
          @concatBlocks_congr (fun b => X.decBlock (X.encBlock b)) (fun b => b)
            blocks (fun b hbm => hD b (hb b hbm)), hc]
      simp only [decrypt_data, hb64, if_neg hlen, hdrop, hdec, removePadding_padData, hutf8]
  · intro hmod
    rw [padData_eq_append, hmod]

/-! A concrete, fully computable instance of the external collaborators,
used to evaluate the theorems at explicit inputs: identity block
functions (a valid AES instance pair satisfies the same contract), a
simple invertible text codec in place of base64, and a character-code
codec in place of UTF-8. -/

/-- Concrete invertible byte-list-to-text encoding: each byte `n`
becomes `n` copies of `a` followed by one `b`. -/
def encChars : List Nat → List Char
  | [] => []
  | n :: rest => List.replicate n 'a' ++ 'b' :: encChars rest

/-- Inverse of `encChars`. -/
def decChars : List Char → Option (List Nat)
  | [] => some []
  | c :: cs =>
    if c = 'b' then Option.map (fun l => 0 :: l) (decChars cs)
    else if c = 'a' then
      match decChars cs with
      | some (n :: rest) => some ((n + 1) :: rest)
      | _ => none
    else none

theorem decChars_replicate_append (n : Nat) (t : List Char) (ns : List Nat)
    (h : decChars t = some ns) :
    decChars (List.replicate n 'a' ++ 'b' :: t) = some (n :: ns) := by
  induction n with
  | zero => simp [decChars, h]
  | succ n ih => simp [decChars, List.replicate_succ, ih]

theorem decChars_encChars : ∀ bs : List Nat, decChars (encChars bs) = some bs := by
  intro bs
  induction bs with
  | nil => rfl
  | cons n rest ih =>
    show decChars (List.replicate n 'a' ++ 'b' :: encChars rest) = _
    exact decChars_replicate_append n _ rest ih

/-- The concrete collaborator instance. -/
def sampleFns : ExternalFns where
  encBlock := fun b => b
  decBlock := fun b => b
  b64enc := fun bs => String.mk (encChars bs)
  b64dec := fun t => decChars t.data
  utf8enc := fun t => t.data.map Char.toNat
  utf8dec := fun l => some (String.mk (l.map Char.ofNat))

theorem sampleFns_b64 (bs : List Nat) :
    sampleFns.b64dec (sampleFns.b64enc bs) = some bs :=
  decChars_encChars bs

theorem sampleFns_utf8 (t : String) :
    sampleFns.utf8dec (sampleFns.utf8enc t) = some t := by
  show some (String.mk ((t.data.map Char.toNat).map Char.ofNat)) = some t
  rw [List.map_map]
  have h1 : t.data.map (Char.ofNat ∘ Char.toNat) = t.data.map id :=
    List.map_congr_left (fun c _ => Char.ofNat_toNat c)
  rw [h1, List.map_id]

/-- Witness for C4: the round trip evaluated on the concrete
collaborator instance; the chosen plaintext has exactly 16 character
codes, so the full-padding-block clause applies to it as well. -/
theorem c4_witness :
    (∃ ct, encrypt_data sampleFns (List.replicate 16 0) "0123456789abcdef" = some ct ∧
        decrypt_data sampleFns ct = DecOutcome.ok "0123456789abcdef")
    ∧ padData (sampleFns.utf8enc "0123456789abcdef") =
        sampleFns.utf8enc "0123456789abcdef" ++ List.replicate 16 16 := by
  have h := c4_encrypt_decrypt_roundtrip sampleFns (List.replicate 16 0) "0123456789abcdef"
    (by simp) sampleFns_b64 sampleFns_utf8 (fun b hb => hb) (fun b _ => rfl)
  exact ⟨h.1, h.2 (by decide)⟩

/--
Counterexample to claim C5 as stated.  The input text decodes to a
17-byte blob: base64 decoding succeeds, the blob is not shorter than 16
bytes, and even the would-be unpadded result converts to text, so by
the claim decryption should succeed — but the block loop hits a 1-byte
final chunk and `GenericArray::clone_from_slice` panics.
-/
theorem c5_counterexample :
    decrypt_data sampleFns (String.mk (List.replicate 17 'b')) = DecOutcome.panicked
    ∧ sampleFns.b64dec (String.mk (List.replicate 17 'b')) = some (List.replicate 17 0)
    ∧ 16 ≤ (List.replicate 17 (0 : Nat)).length
    ∧ (sampleFns.utf8dec (removePadding ((List.replicate 17 (0 : Nat)).drop 16))).isSome = true := by
  refine ⟨?_, ?_, ?_, ?_⟩ <;> decide

/--
Claim C5, amended: decryption returns an error when base64 decoding
fails or the decoded blob is shorter than 16 bytes; when the blob is at
least 16 bytes but its length is not congruent to 0 modulo 16, the
block loop panics (it does not return); when the blob length is a
multiple of 16, decryption returns an encoding error or succeeds —
precisely, it returns the encoding error exactly when UTF-8 conversion
rejects the unpadded block-loop output, and otherwise returns that
output as text; and a final decrypted byte outside `1..=16` leaves the
padding in place as a no-op.
-/
theorem c5_decrypt_totality_amended (X : ExternalFns) (s : String) :
    (X.b64dec s = none → decrypt_data X s = DecOutcome.err "Failed to decode base64")
    ∧ (∀ bs, X.b64dec s = some bs → bs.length < 16 →
        decrypt_data X s = DecOutcome.err "Invalid encrypted data")
    ∧ (∀ bs, X.b64dec s = some bs → 16 ≤ bs.length → (bs.length - 16) % 16 ≠ 0 →
        decrypt_data X s = DecOutcome.panicked)
    ∧ (∀ bs, X.b64dec s = some bs → 16 ≤ bs.length → (bs.length - 16) % 16 = 0 →
        (decrypt_data X s = DecOutcome.err "Failed to convert to string"
          ∨ ∃ t, decrypt_data X s = DecOutcome.ok t))
    ∧ (∀ bs out, X.b64dec s = some bs → 16 ≤ bs.length → (bs.length - 16) % 16 = 0 →
        processBlocks X.decBlock (bs.drop 16) = some out →
        X.utf8dec (removePadding out) = none →
        decrypt_data X s = DecOutcome.err "Failed to convert to string")
    ∧ (∀ bs out t, X.b64dec s = some bs → 16 ≤ bs.length → (bs.length - 16) % 16 = 0 →
        processBlocks X.decBlock (bs.drop 16) = some out →
        X.utf8dec (removePadding out) = some t →
        decrypt_data X s = DecOutcome.ok t)
    ∧ (∀ (l : List Nat) (p : Nat), l.getLast? = some p → ¬ (1 ≤ p ∧ p ≤ 16) →
        removePadding l = l) := by
  refine ⟨?_, ?_, ?_, ?_, ?_, ?_, ?_⟩
  · intro h
    simp only [decrypt_data, h]
  · intro bs h hlt
    simp only [decrypt_data, h, if_pos hlt]
  · intro bs h h16 hmod
    have hnone : processBlocks X.decBlock (bs.drop 16) = none :=
      processBlocks_none_of_mod X.decBlock (bs.drop 16)
        (by simp [List.length_drop]; omega)
    simp only [decrypt_data, h, if_neg (by omega : ¬ bs.length < 16), hnone]
  · intro bs h h16 hmod
    obtain ⟨out, hout⟩ := processBlocks_some_of_mod X.decBlock (bs.drop 16)
      (by simp [List.length_drop]; omega)
    cases hu : X.utf8dec (removePadding out) with
    | none =>
      left
      simp only [decrypt_data, h, if_neg (by omega : ¬ bs.length < 16), hout, hu]
    | some t =>
      right
      refine ⟨t, ?_⟩
      simp only [decrypt_data, h, if_neg (by omega : ¬ bs.length < 16), hout, hu]
  · intro bs out h h16 hmod hout hu
    simp only [decrypt_data, h, if_neg (by omega : ¬ bs.length < 16), hout, hu]
  · intro bs out t h h16 hmod hout hu
    simp only [decrypt_data, h, if_neg (by omega : ¬ bs.length < 16), hout, hu]
  · intro l p hl hp
    unfold removePadding
    rw [hl]
    show (if p ≤ 16 ∧ 0 < p then List.take (l.length - p) l else l) = l
    rw [if_neg (by omega)]

/-- Witness for the amended C5: a concrete 16-byte blob (exactly the IV,
nothing after it) falls in the success-or-encoding-error case, and —
since UTF-8 conversion accepts its empty unpadded output — decryption
returns exactly that output as text. -/
theorem c5_witness :
    (decrypt_data sampleFns (String.mk (List.replicate 16 'b')) =
        DecOutcome.err "Failed to convert to string"
      ∨ ∃ t, decrypt_data sampleFns (String.mk (List.replicate 16 'b')) = DecOutcome.ok t)
    ∧ decrypt_data sampleFns (String.mk (List.replicate 16 'b')) =
        DecOutcome.ok (String.mk []) :=
  ⟨((c5_decrypt_totality_amended sampleFns (String.mk (List.replicate 16 'b'))).2.2.2.1)
      (List.replicate 16 0) (by decide) (by decide) (by decide),
    ((c5_decrypt_totality_amended sampleFns (String.mk (List.replicate 16 'b'))).2.2.2.2.2.1)
      (List.replicate 16 0) [] (String.mk []) (by decide) (by decide) (by decide)
      (by decide) (by rfl)⟩

/--
Claim C1 (code-bug evidence): `get_encryption_key`, which `encrypt_data`
(line 173) and `decrypt_data` (line 198) build their cipher from for
every save and load, returns the machine key for every key state — it
never consults the password key.  At a state with a password key set,
it diverges from the spec-side active-key resolution `activeKeySpec`,
which the claim asserts.
-/
theorem c1_machine_key_always_used :
    (∀ s : KeyState, get_encryption_key s = s.machineKey)
    ∧ get_encryption_key ⟨List.replicate 32 0, some (List.replicate 32 1)⟩ =
        List.replicate 32 0
    ∧ activeKeySpec ⟨List.replicate 32 0, some (List.replicate 32 1)⟩ =
        List.replicate 32 1
    ∧ decide (List.replicate 32 (0 : Nat) = List.replicate 32 1) = false :=
  ⟨fun _ => rfl, rfl, rfl, by decide⟩

/--
Claim C8 (code-bug evidence): when the first decrypt attempt of
`merge_keys_from_file` fails while a password key is set, the retry path
calls `clear_password_key()` and never restores it — the merge
operation removes the password key, contradicting the claim (and the
code's own comment that the clearing is temporary).
-/
theorem c8_merge_retry_clears_password_key :
    ((merge_keys_from_file_keyflow (fun _ => Except.error "Failed to decrypt")
        ⟨List.replicate 32 0, some (List.replicate 32 1)⟩).2).passwordKey = none
    ∧ (⟨List.replicate 32 0, some (List.replicate 32 1)⟩ : KeyState).passwordKey =
        some (List.replicate 32 1) :=
  ⟨rfl, rfl⟩

/-- The deduplication predicate of the merge engine, rewritten from the
id-set membership test the code performs to the declarative form the
spec states. -/
theorem keep_pred_eq (current : List SshKey) (k : SshKey) :
    (!((current.map SshKey.id).contains k.id)) =
      decide (∀ c ∈ current, c.id ≠ k.id) := by
  rw [Bool.eq_iff_iff]
  simp [List.mem_map]

/--
The merge step (commands.rs lines 727-740), taken on its own two
inputs, does satisfy the claimed formula: the merged collection is the
first collection followed by exactly those incoming records whose id
does not occur in it (first conjunct, with the spec-side declarative
predicate); the password-import path merges identically (second); the
kept incoming records appear in their original relative order and the
current records stay in front unchanged (third and fourth); and the
deduplication decision depends only on the record id (fifth and
sixth).  Claim C2 nevertheless fails at the command level: see
`c2_merge_overwrites_current`.
-/
theorem merge_step_dedup_by_id_only (current inc : List SshKey) :
    (mergeKeys current inc =
      current ++ inc.filter (fun k => decide (∀ c ∈ current, c.id ≠ k.id)))
    ∧ ((password_import_result current inc).keys = mergeKeys current inc)
    ∧ List.Sublist (inc.filter (fun k => !((current.map SshKey.id).contains k.id))) inc
    ∧ ((mergeKeys current inc).take current.length = current)
    ∧ (∀ a b : SshKey, a.id = b.id →
        (!((current.map SshKey.id).contains a.id)) =
          (!((current.map SshKey.id).contains b.id)))
    ∧ (∀ cur2 : List SshKey, cur2.map SshKey.id = current.map SshKey.id →
        mergeKeys cur2 inc =
          cur2 ++ inc.filter (fun k => !((current.map SshKey.id).contains k.id))) := by
  refine ⟨?_, ?_, ?_, ?_, ?_, ?_⟩
  · show current ++ inc.filter (fun k => !((current.map SshKey.id).contains k.id)) = _
    exact congrArg (current ++ ·) (List.filter_congr (fun k _ => keep_pred_eq current k))
  · by_cases hz :
      (inc.filter (fun k => !((current.map SshKey.id).contains k.id))).length = 0
    · have hnil := List.length_eq_zero.mp hz
      simp only [password_import_result, mergeKeys]
      rw [if_pos hz, hnil, List.append_nil]
    · simp only [password_import_result, mergeKeys]
      rw [if_neg hz]
  · exact List.filter_sublist inc
  · show (current ++ inc.filter (fun k => !((current.map SshKey.id).contains k.id))).take
        current.length = current
    exact List.take_left current _
  · intro a b h
    rw [h]
  · intro cur2 h
    show cur2 ++ inc.filter (fun k => !((cur2.map SshKey.id).contains k.id)) = _
    rw [h]

/-! Concrete sample records for evaluating the theorems. -/

def kA : SshKey :=
  { id := "id-a", name := "alpha", tag := none, key := "ka"
    key_type := "unknown", created := 0, last_modified := 0 }

/-- Same id as `kA`, entirely different name and key content. -/
def kA2 : SshKey :=
  { id := "id-a", name := "ALPHA renamed", tag := some "t", key := "other content"
    key_type := "rsa", created := 5, last_modified := 9 }

def kB : SshKey :=
  { id := "id-b", name := "beta", tag := none, key := "kb"
    key_type := "unknown", created := 0, last_modified := 0 }

/-- The merge-step facts evaluated at concrete collections: the current
side `[kA]` and a variant `[kA2]` with the same id sequence deduplicate
the incoming `[kA, kB]` identically, and records sharing an id are
decided alike. -/
theorem merge_step_dedup_eval :
    (mergeKeys [kA2] [kA, kB] =
      [kA2] ++ List.filter (fun k => !((([kA] : List SshKey).map SshKey.id).contains k.id)) [kA, kB])
    ∧ ((!((([kA] : List SshKey).map SshKey.id).contains kA2.id)) =
        (!((([kA] : List SshKey).map SshKey.id).contains kA.id))) := by
  have h := merge_step_dedup_by_id_only [kA] [kA, kB]
  exact ⟨h.2.2.2.2.2 [kA2] (by decide), h.2.2.2.2.1 kA2 kA (by decide)⟩

/--
`merge_keys_from_file`, commands.rs lines 723-752, after the source file
has been loaded: read the current collection from the cache
(`get_cached_keys`, line 724), deduplicate the source records against it
by id and append them (lines 727-740, `mergeKeys`), save the merged
collection to the active path (line 744), and commit it to the cache
(lines 748-749).
-/
def merge_keys_rest (load_default : Unit → Except String (List SshKey))
    (save : List SshKey → Except String Unit)
    (source_keys : List SshKey) (st1 : StoreState) :
    Except String (List SshKey) × StoreState :=
  match get_cached_keys load_default st1.cache with
  | (Except.error e, c2) => (Except.error e, { st1 with cache := c2 })
  | (Except.ok current_keys, c2) =>
    let merged_keys := mergeKeys current_keys source_keys
    match save merged_keys with
    | Except.error e => (Except.error e, { st1 with cache := c2 })
    | Except.ok _ => (Except.ok merged_keys, { st1 with cache := some merged_keys })

/--
`merge_keys_from_file`, commands.rs lines 694-753, as a transition on
the location state: the source file is loaded via `load_keys_from_file`
(line 698) — which on success switches the active path to the source
file and overwrites the cache with the source keys — retrying once
after `clear_password_key()` (lines 703-720; the key-state effect of
the retry is `merge_keys_from_file_keyflow`); then the merge runs
against whatever `get_cached_keys` now returns.  `attempt1` and
`attempt2` abstract the two decrypt outcomes.
-/
def merge_keys_from_file_op (attempt1 attempt2 : Except String (List SshKey))
    (source_path : String) (load_default : Unit → Except String (List SshKey))
    (save : List SshKey → Except String Unit) (st : StoreState) :
    Except String (List SshKey) × StoreState :=
  match load_keys_from_file attempt1 source_path st with
  | (Except.ok source_keys, st1) => merge_keys_rest load_default save source_keys st1
  | (Except.error _, st1) =>
    match load_keys_from_file attempt2 source_path st1 with
    | (Except.ok source_keys, st2) => merge_keys_rest load_default save source_keys st2
    | (Except.error _, st2) =>
      (Except.error "Failed to decrypt file. The file may be password-protected or corrupted. Try using Import with Password Protection instead.", st2)

/--
Claim C2 (code-bug evidence): with the store holding `[kA]` and a
source file decrypting to `[kB]` at the first attempt,
`merge_keys_from_file` returns `[kB]` and leaves the store switched to
the source path with only `[kB]` cached — the original record `kA` is
discarded — whereas the claimed formula applied to the pre-state
current collection and the incoming collection produces `[kA, kB]`.
The divergence arises because `load_keys_from_file` overwrites the
cache with the source keys before `get_cached_keys` reads the
"current" collection.
-/
theorem c2_merge_overwrites_current :
    merge_keys_from_file_op (Except.ok [kB]) (Except.error "unused") "source.enc"
        (fun _ => Except.error "not consulted") (fun _ => Except.ok ())
        { customPath := none, cache := some [kA] } =
      (Except.ok [kB], { customPath := some "source.enc", cache := some [kB] })
    ∧ mergeKeys [kA] [kB] = [kA, kB] := by
  constructor
  · rfl
  · decide

theorem length_filter_split {α : Type} (p : α → Bool) (l : List α) :
    (l.filter p).length + (l.filter (fun a => !(p a))).length = l.length := by
  induction l with
  | nil => rfl
  | cons a t ih =>
    cases hpa : p a <;> simp [List.filter_cons, hpa, ← ih] <;> omega

/--
Claim C3: importing an incoming collection of length `n` sharing
exactly `k` of its record ids with the current collection of length `m`
reports `imported_count = n - k` and `duplicate_count = k`, their sum is
`n`, and the resulting store holds `m + n - k` records.
-/
theorem c3_import_counts (current inc : List SshKey) (m n k : Nat)
    (hm : m = current.length) (hn : n = inc.length)
    (hk : k = (inc.filter (fun b => (current.map SshKey.id).contains b.id)).length) :
    (password_import_result current inc).imported_count = n - k
    ∧ (password_import_result current inc).duplicate_count = k
    ∧ (password_import_result current inc).imported_count
        + (password_import_result current inc).duplicate_count = n
    ∧ (password_import_result current inc).total_in_store = m + (n - k)
    ∧ ((password_import_result current inc).keys).length = m + (n - k) := by
  have hsplit :=
    length_filter_split (fun b => (current.map SshKey.id).contains b.id) inc
  by_cases hz :
    (inc.filter (fun b => !((current.map SshKey.id).contains b.id))).length = 0
  · refine ⟨?_, ?_, ?_, ?_, ?_⟩ <;>
      · simp only [password_import_result]
        rw [if_pos hz]
        simp only []
        omega
  · refine ⟨?_, ?_, ?_, ?_, ?_⟩ <;>
      · simp only [password_import_result]
        rw [if_neg hz]
        simp only [List.length_append]
        omega

/-- Witness for C3: current `[kA]`, incoming `[kA2, kB]` sharing exactly
the id of `kA`: one import, one duplicate, two records stored. -/
theorem c3_witness :
    (password_import_result [kA] [kA2, kB]).imported_count = 2 - 1
    ∧ (password_import_result [kA] [kA2, kB]).duplicate_count = 1
    ∧ (password_import_result [kA] [kA2, kB]).imported_count
        + (password_import_result [kA] [kA2, kB]).duplicate_count = 2
    ∧ (password_import_result [kA] [kA2, kB]).total_in_store = 1 + (2 - 1)
    ∧ ((password_import_result [kA] [kA2, kB]).keys).length = 1 + (2 - 1) :=
  c3_import_counts [kA] [kA2, kB] 1 2 1 (by decide) (by decide) (by decide)

/--
Claim C6: `update_cache_and_save` replaces the in-memory collection only
if the preceding save succeeds — a failed save leaves the cache exactly
as it was — and after a successful commit of `X` the cache holds `X`,
so a subsequent `get_cached_keys` returns exactly `X` for every possible
loader, i.e. without consulting the disk.
-/
theorem c6_commit_write_through (save : List SshKey → Except String Unit)
    (keys X : List SshKey) (cache : Option (List SshKey)) :
    (∀ e, save keys = Except.error e →
      update_cache_and_save save keys cache = (Except.error e, cache))
    ∧ (save X = Except.ok () →
        (update_cache_and_save save X cache).2 = some X
        ∧ ∀ load : Unit → Except String (List SshKey),
            get_cached_keys load ((update_cache_and_save save X cache).2) =
              (Except.ok X, some X)) := by
  constructor
  · intro e he
    simp only [update_cache_and_save, he]
  · intro hok
    have h2 : (update_cache_and_save save X cache).2 = some X := by
      simp only [update_cache_and_save, hok]
    refine ⟨h2, ?_⟩
    intro load
    rw [h2]
    rfl

/-- Witness for C6: a concrete save that fails on the empty collection
and succeeds on `[kA]`. -/
theorem c6_witness :
    (update_cache_and_save (fun l => if l.length = 0 then Except.error "io" else Except.ok ())
        [] (some [kB]) = (Except.error "io", some [kB]))
    ∧ (update_cache_and_save (fun l => if l.length = 0 then Except.error "io" else Except.ok ())
        [kA] (some [kB])).2 = some [kA]
    ∧ get_cached_keys (fun _ => Except.error "disk changed")
        ((update_cache_and_save (fun l => if l.length = 0 then Except.error "io" else Except.ok ())
          [kA] (some [kB])).2) = (Except.ok [kA], some [kA]) := by
  have h := c6_commit_write_through
    (fun l => if l.length = 0 then Except.error "io" else Except.ok ()) [] [kA] (some [kB])
  exact ⟨h.1 "io" (by rfl), (h.2 (by rfl)).1,
    (h.2 (by rfl)).2 (fun _ => Except.error "disk changed")⟩

/--
Claim C7: `add_ssh_key` rejects a new record whose trimmed name matches
an existing record's trimmed name case-insensitively, and rejects one
whose trimmed key content exactly matches an existing record's trimmed
key content; in both cases an error is returned and the stored
collection is unchanged.
-/
theorem c7_add_rejects_duplicates (keys : List SshKey) (name : String)
    (tag : Option String) (key_content new_id : String) (now : Nat)
    (hdup : (∃ k ∈ keys, strLower (strTrim k.name) = strLower (strTrim name))
      ∨ (∃ k ∈ keys, strTrim k.key = strTrim key_content)) :
    (∃ e, (add_ssh_key_op keys name tag key_content new_id now).1 = Except.error e)
    ∧ (add_ssh_key_op keys name tag key_content new_id now).2 = keys := by
  by_cases hc : keys.any (fun k => strTrim k.key == strTrim key_content)
  · refine ⟨⟨"A key with this content already exists", ?_⟩, ?_⟩ <;>
      simp only [add_ssh_key_op, add_ssh_key, if_pos hc]
  · have hn : keys.any (fun k => strLower (strTrim k.name) == strLower (strTrim name)) := by
      rcases hdup with ⟨k, hk, hkeq⟩ | ⟨k, hk, hkeq⟩
      · exact List.any_eq_true.mpr ⟨k, hk, beq_iff_eq.mpr hkeq⟩
      · exact absurd
          (show keys.any (fun k2 => strTrim k2.key == strTrim key_content) = true from
            List.any_eq_true.mpr ⟨k, hk, beq_iff_eq.mpr hkeq⟩) hc
    refine ⟨⟨"A key with this name already exists", ?_⟩, ?_⟩ <;>
      simp only [add_ssh_key_op, add_ssh_key, if_neg hc, if_pos hn]

/-- Witness for C7: adding a record whose name differs from the name of
`kA` only by case and surrounding whitespace is rejected and leaves the
collection as it was. -/
theorem c7_witness :
    (∃ e, (add_ssh_key_op [kA] " Alpha " (some "t") "fresh content" "id-new" 7).1 =
      Except.error e)
    ∧ (add_ssh_key_op [kA] " Alpha " (some "t") "fresh content" "id-new" 7).2 = [kA] :=
  c7_add_rejects_duplicates [kA] " Alpha " (some "t") "fresh content" "id-new" 7
    (Or.inl ⟨kA, by decide, by decide⟩)

/--
Counterexample to claim C9 as stated: a successful `load_keys_from_file`
does not drop the in-memory collection — it leaves the cache populated
(with the loaded keys), so the claim that every location-change
operation invalidates the cache is false for this operation.
-/
theorem c9_counterexample :
    (load_keys_from_file (Except.ok [kB]) "other.enc"
        { customPath := none, cache := some [kA] }).2.cache = some [kB]
    ∧ ((load_keys_from_file (Except.ok [kB]) "other.enc"
        { customPath := none, cache := some [kA] }).2.cache).isSome = true :=
  ⟨rfl, rfl⟩

/--
Claim C9, amended: setting a custom path and resetting to the default
path drop the in-memory collection as part of the same operation;
loading from an arbitrary file instead replaces the cache with exactly
the collection loaded from that file (and leaves all state untouched
when the load fails), so the previously cached collection never
survives a location change — but the load operation populates the cache
rather than emptying it.
-/
theorem c9_location_change_cache (file_path : String) (st : StoreState)
    (read_result : Except String (List SshKey)) :
    ((set_custom_keys_file_path true file_path st).2.cache = none
      ∧ (set_custom_keys_file_path true file_path st).2.customPath = some file_path)
    ∧ (reset_to_default_path st).cache = none
    ∧ (∀ keys, read_result = Except.ok keys →
        (load_keys_from_file read_result file_path st).2.cache = some keys
          ∧ (load_keys_from_file read_result file_path st).2.customPath = some file_path)
    ∧ (∀ e, read_result = Except.error e →
        (load_keys_from_file read_result file_path st).2 = st) := by
  refine ⟨⟨rfl, rfl⟩, rfl, ?_, ?_⟩
  · intro keys h
    subst h
    exact ⟨rfl, rfl⟩
  · intro e h
    subst h
    rfl

/-- Witness for the amended C9 at concrete states. -/
theorem c9_witness :
    ((load_keys_from_file (Except.ok [kB]) "other.enc"
        { customPath := none, cache := some [kA] }).2.cache = some [kB]
      ∧ (load_keys_from_file (Except.ok [kB]) "other.enc"
        { customPath := none, cache := some [kA] }).2.customPath = some "other.enc")
    ∧ (load_keys_from_file (Except.error "no such file") "other.enc"
        { customPath := none, cache := some [kA] }).2 =
        { customPath := none, cache := some [kA] } := by
  have h1 := c9_location_change_cache "other.enc"
    { customPath := none, cache := some [kA] } (Except.ok [kB])
  have h2 := c9_location_change_cache "other.enc"
    { customPath := none, cache := some [kA] } (Except.error "no such file")
  exact ⟨h1.2.2.1 [kB] rfl, h2.2.2.2 "no such file" rfl⟩

/--
Claim C10: updating only the `tag` of a record present in the
collection succeeds, leaves that record's `name`, `key`, `key_type`,
`id` and `created` unchanged, sets its `tag`, sets `last_modified` to
the operation time (which advances it whenever the clock has not gone
backwards), and leaves every other record untouched.
-/
theorem c10_tag_only_update (keys : List SshKey) (id tagv : String) (now : Nat)
    (i : Nat) (r : SshKey)
    (hfind : keys.findIdx? (fun k => k.id == id) = some i)
    (hget : keys[i]? = some r) :
    ∃ r2 keys2,
      update_ssh_key keys id { name := none, tag := some tagv, key := none } now =
        Except.ok (r2, keys2)
      ∧ r2.name = r.name ∧ r2.key = r.key ∧ r2.key_type = r.key_type
      ∧ r2.id = r.id ∧ r2.created = r.created
      ∧ r2.tag = some tagv ∧ r2.last_modified = now
      ∧ keys2[i]? = some r2
      ∧ (∀ j, j ≠ i → keys2[j]? = keys[j]?)
      ∧ keys2.length = keys.length
      ∧ (r.last_modified ≤ now → r.last_modified ≤ r2.last_modified) := by
  have happ : applyUpdate { name := none, tag := some tagv, key := none } now r =
      { r with tag := some tagv, last_modified := now } := rfl
  refine ⟨{ r with tag := some tagv, last_modified := now },
    keys.modify (applyUpdate { name := none, tag := some tagv, key := none } now) i,
    ?_, rfl, rfl, rfl, rfl, rfl, rfl, rfl, ?_, ?_, ?_, fun h => h⟩
  · simp [update_ssh_key, hfind, hget, happ]
  · simp [List.getElem?_modify, hget, happ]
  · intro j hj
    rw [List.getElem?_modify]
    cases hgj : keys[j]? with
    | none => simp [hgj]
    | some x => simp [hgj, Ne.symm hj]
  · simp [List.length_modify]

/-- Witness for C10: a tag-only update of `kB` inside `[kA, kB]`. -/
theorem c10_witness :
    ∃ r2 keys2,
      update_ssh_key [kA, kB] "id-b" { name := none, tag := some "prod", key := none } 3 =
        Except.ok (r2, keys2)
      ∧ r2.name = kB.name ∧ r2.key = kB.key ∧ r2.key_type = kB.key_type
      ∧ r2.id = kB.id ∧ r2.created = kB.created
      ∧ r2.tag = some "prod" ∧ r2.last_modified = 3
      ∧ keys2[1]? = some r2
      ∧ (∀ j, j ≠ 1 → keys2[j]? = ([kA, kB] : List SshKey)[j]?)
      ∧ keys2.length = ([kA, kB] : List SshKey).length
      ∧ (kB.last_modified ≤ 3 → kB.last_modified ≤ r2.last_modified) :=
  c10_tag_only_update [kA, kB] "id-b" "prod" 3 1 kB (by decide) (by decide)

end SshKim
